import Mathlib

/-!
# PipelineManager: registry of inference pipelines

A verification development over `dynamic_vino_lib/pipeline_manager.h`.

The header defines the class `PipelineManager`: the enumeration
`PipelineState`, the record `PipelineData`, the singleton accessor
`getInstance`, the two accessors `getPipelines` / `getPipelinesPtr` of the
registry map `pipelines_`, and the declarations of the lifecycle operations
and of the twelve inference constructors.  Member functions whose bodies are
not part of the header are modelled from the specification and marked so.

Stateful member functions are embedded by explicit state passing: a member
function of `PipelineManager` becomes a function that takes the object state
and returns its result together with the state after the call.
-/

namespace StdString

/-- Ordering of `std::string` keys used by `std::map<std::string, T>`:
lexicographic comparison of the character sequences (`std::less`). -/
def less (a b : String) : Prop := a.toList < b.toList

instance decLess (a b : String) : Decidable (less a b) :=
  inferInstanceAs (Decidable (a.toList < b.toList))

end StdString

/-- Raw insertion of `std::map::insert`: the entry is placed at its position
in key order; when the key is already present the map is left as it is. -/
def StdMap.insertEntries {V : Type} (k : String) (v : V) :
    List (String × V) → List (String × V)
  | [] => [(k, v)]
  | e :: t =>
    if StdString.less k e.1 then (k, v) :: e :: t
    else if k = e.1 then e :: t
    else e :: StdMap.insertEntries k v t

/-- Raw assignment `m[k] = v` (`insert_or_assign`): the entry is placed at
its position in key order; when the key is already present its value is
replaced. -/
def StdMap.assignEntries {V : Type} (k : String) (v : V) :
    List (String × V) → List (String × V)
  | [] => [(k, v)]
  | e :: t =>
    if StdString.less k e.1 then (k, v) :: e :: t
    else if k = e.1 then (k, v) :: t
    else e :: StdMap.assignEntries k v t

/-- Raw erasure of `std::map::erase(key)`: the entry under the key, if any,
is dropped. -/
def StdMap.eraseEntries {V : Type} (k : String) :
    List (String × V) → List (String × V)
  | [] => []
  | e :: t => if k = e.1 then t else e :: StdMap.eraseEntries k t

theorem StdMap.mem_insertEntries {V : Type} (k : String) (v : V) :
    ∀ (l : List (String × V)) (x : String × V),
      x ∈ StdMap.insertEntries k v l → x = (k, v) ∨ x ∈ l := by
  intro l
  induction l with
  | nil => intro x hx; simpa [StdMap.insertEntries] using hx
  | cons e t ih =>
    intro x hx
    unfold StdMap.insertEntries at hx
    split_ifs at hx with h1 h2
    · rcases List.mem_cons.mp hx with h | h
      · exact Or.inl h
      · exact Or.inr h
    · exact Or.inr hx
    · rcases List.mem_cons.mp hx with h | h
      · exact Or.inr (h ▸ List.mem_cons_self _ _)
      · rcases ih x h with h3 | h3
        · exact Or.inl h3
        · exact Or.inr (List.mem_cons_of_mem _ h3)

theorem StdMap.mem_assignEntries {V : Type} (k : String) (v : V) :
    ∀ (l : List (String × V)) (x : String × V),
      x ∈ StdMap.assignEntries k v l → x = (k, v) ∨ x ∈ l := by
  intro l
  induction l with
  | nil => intro x hx; simpa [StdMap.assignEntries] using hx
  | cons e t ih =>
    intro x hx
    unfold StdMap.assignEntries at hx
    split_ifs at hx with h1 h2
    · rcases List.mem_cons.mp hx with h | h
      · exact Or.inl h
      · exact Or.inr h
    · rcases List.mem_cons.mp hx with h | h
      · exact Or.inl h
      · exact Or.inr (List.mem_cons_of_mem _ h)
    · rcases List.mem_cons.mp hx with h | h
      · exact Or.inr (h ▸ List.mem_cons_self _ _)
      · rcases ih x h with h3 | h3
        · exact Or.inl h3
        · exact Or.inr (List.mem_cons_of_mem _ h3)

theorem StdMap.mem_eraseEntries {V : Type} (k : String) :
    ∀ (l : List (String × V)) (x : String × V),
      x ∈ StdMap.eraseEntries k l → x ∈ l := by
  intro l
  induction l with
  | nil => intro x hx; simp [StdMap.eraseEntries] at hx
  | cons e t ih =>
    intro x hx
    unfold StdMap.eraseEntries at hx
    split_ifs at hx with h1
    · exact List.mem_cons_of_mem _ hx
    · rcases List.mem_cons.mp hx with h | h
      · exact h ▸ List.mem_cons_self _ _
      · exact List.mem_cons_of_mem _ (ih x h)

theorem StdString.less_iff (a b : String) : StdString.less a b ↔ a < b :=
  String.lt_iff_toList_lt.symm

theorem StdString.less_trans {a b c : String}
    (h1 : StdString.less a b) (h2 : StdString.less b c) : StdString.less a c := by
  rw [StdString.less_iff] at *
  exact lt_trans h1 h2

theorem StdString.less_irrefl (a : String) : ¬ StdString.less a a := by
  rw [StdString.less_iff]
  exact lt_irrefl a

theorem StdString.less_of_not {a b : String}
    (h1 : ¬ StdString.less a b) (h2 : a ≠ b) : StdString.less b a := by
  rw [StdString.less_iff] at *
  exact lt_of_le_of_ne (not_lt.mp h1) (Ne.symm h2)

/-- Key order of the entries of a `std::map`: strictly ascending keys. -/
def StdMap.Sorted {V : Type} (l : List (String × V)) : Prop :=
  l.Pairwise (fun a b => StdString.less a.1 b.1)

theorem StdMap.sorted_insertEntries {V : Type} (k : String) (v : V) :
    ∀ (l : List (String × V)), StdMap.Sorted l →
      StdMap.Sorted (StdMap.insertEntries k v l) := by
  intro l
  induction l with
  | nil => intro _; simp [StdMap.insertEntries, StdMap.Sorted]
  | cons e t ih =>
    intro hs
    have hs2 := List.pairwise_cons.mp hs
    unfold StdMap.insertEntries
    split_ifs with h1 h2
    · refine List.pairwise_cons.mpr ⟨?_, hs⟩
      intro x hx
      rcases List.mem_cons.mp hx with h | h
      · exact h ▸ h1
      · exact StdString.less_trans h1 (hs2.1 x h)
    · exact hs
    · refine List.pairwise_cons.mpr ⟨?_, ih hs2.2⟩
      intro x hx
      rcases StdMap.mem_insertEntries k v t x hx with h | h
      · rw [h]; exact StdString.less_of_not h1 h2
      · exact hs2.1 x h

theorem StdMap.sorted_assignEntries {V : Type} (k : String) (v : V) :
    ∀ (l : List (String × V)), StdMap.Sorted l →
      StdMap.Sorted (StdMap.assignEntries k v l) := by
  intro l
  induction l with
  | nil => intro _; simp [StdMap.assignEntries, StdMap.Sorted]
  | cons e t ih =>
    intro hs
    have hs2 := List.pairwise_cons.mp hs
    unfold StdMap.assignEntries
    split_ifs with h1 h2
    · refine List.pairwise_cons.mpr ⟨?_, hs⟩
      intro x hx
      rcases List.mem_cons.mp hx with h | h
      · exact h ▸ h1
      · exact StdString.less_trans h1 (hs2.1 x h)
    · refine List.pairwise_cons.mpr ⟨?_, hs2.2⟩
      intro x hx
      have := hs2.1 x hx
      rw [← h2] at this
      exact this
    · refine List.pairwise_cons.mpr ⟨?_, ih hs2.2⟩
      intro x hx
      rcases StdMap.mem_assignEntries k v t x hx with h | h
      · rw [h]; exact StdString.less_of_not h1 h2
      · exact hs2.1 x h

theorem StdMap.sorted_eraseEntries {V : Type} (k : String) :
    ∀ (l : List (String × V)), StdMap.Sorted l →
      StdMap.Sorted (StdMap.eraseEntries k l) := by
  intro l
  induction l with
  | nil => intro _; simp [StdMap.eraseEntries, StdMap.Sorted]
  | cons e t ih =>
    intro hs
    have hs2 := List.pairwise_cons.mp hs
    unfold StdMap.eraseEntries
    split_ifs with h1
    · exact hs2.2
    · refine List.pairwise_cons.mpr ⟨?_, ih hs2.2⟩
      intro x hx
      exact hs2.1 x (StdMap.mem_eraseEntries k t x hx)

/-- Model of `std::map<std::string, V>`: the entries in iteration order,
which is strictly ascending key order. -/
structure StdMap (V : Type) where
  entries : List (String × V)
  sorted : StdMap.Sorted entries

namespace StdMap

theorem ext_entries {V : Type} (a b : StdMap V) (h : a.entries = b.entries) : a = b := by
  cases a; cases b; cases h; rfl

instance decEq {V : Type} [DecidableEq V] : DecidableEq (StdMap V) := fun a b =>
  decidable_of_iff (a.entries = b.entries)
    ⟨ext_entries a b, fun h => h ▸ rfl⟩

/-- Default-constructed (empty) map. -/
def empty {V : Type} : StdMap V := ⟨[], List.Pairwise.nil⟩

/-- Keys in iteration order. -/
def keys {V : Type} (m : StdMap V) : List String := m.entries.map Prod.fst

/-- Lookup over the raw entries. -/
def findEntries {V : Type} (k : String) : List (String × V) → Option V
  | [] => none
  | e :: t => if k = e.1 then some e.2 else findEntries k t

/-- Value stored under a key (`std::map::find`), if any. -/
def find? {V : Type} (m : StdMap V) (k : String) : Option V := findEntries k m.entries

/-- All values stored under a key, in iteration order. -/
def recordsUnder {V : Type} (m : StdMap V) (k : String) : List V :=
  (m.entries.filter (fun e => decide (e.1 = k))).map Prod.snd

/-- Number of entries under a key (`std::map::count`). -/
def count {V : Type} (m : StdMap V) (k : String) : Nat := (m.recordsUnder k).length

/-- Insertion that keeps an existing entry (`std::map::insert`). -/
def insert {V : Type} (m : StdMap V) (k : String) (v : V) : StdMap V :=
  ⟨insertEntries k v m.entries, sorted_insertEntries k v m.entries m.sorted⟩

/-- Insertion that replaces an existing entry (`m[k] = v`). -/
def assign {V : Type} (m : StdMap V) (k : String) (v : V) : StdMap V :=
  ⟨assignEntries k v m.entries, sorted_assignEntries k v m.entries m.sorted⟩

/-- Erasure by key (`std::map::erase`). -/
def erase {V : Type} (m : StdMap V) (k : String) : StdMap V :=
  ⟨eraseEntries k m.entries, sorted_eraseEntries k m.entries m.sorted⟩

end StdMap

/-- Modelled from the spec: `Params::ParamManager::InferenceRawData`, declared
in `vino_param_lib/param_manager.h`.  An inference declaration carries a type
tag, named parameters and references to upstream stages. -/
structure InferenceRawData where
  tag : String
  params : List (String × String)
  upstream : List String
deriving DecidableEq, Repr

/-- Modelled from the spec: `Params::ParamManager::PipelineRawData`, declared
in `vino_param_lib/param_manager.h`.  A named set of input-source,
output-sink and inference-task declarations. -/
structure PipelineRawData where
  name : String
  inputs : List String
  outputs : List String
  infers : List InferenceRawData
deriving DecidableEq, Repr

/-- Modelled from the spec: `Pipeline`, declared in `dynamic_vino_lib/pipeline.h`.
An assembled graph: resolved input sources, inference stages and output sinks
of one named configuration. -/
structure Pipeline where
  name : String
  inputs : List String
  stages : List String
  outputs : List String
deriving DecidableEq, Repr

/-- Modelled from the spec: `ros::NodeHandle`, the middleware spin handle
registered for a pipeline; identified by its namespace. -/
structure NodeHandle where
  ns : String
deriving DecidableEq, Repr

/-- Modelled from the spec: `std::thread` worker of one pipeline.  The worker
executes `threadPipeline(name)`, so it is identified by the pipeline name it
was started with. -/
structure Thread where
  pipelineName : String
deriving DecidableEq, Repr

/-- Modelled from the spec: `Engines::EngineManager`, declared in
`dynamic_vino_lib/engines/engine_manager.h`.  Only the device keys of the
engines handed out so far are recorded. -/
structure EngineManager where
  devices : List String
deriving DecidableEq, Repr

namespace PipelineManager

/-- The enumeration `PipelineManager::PipelineState`. -/
inductive PipelineState where
  | PipelineState_ThreadNotCreated
  | PipelineState_ThreadStopped
  | PipelineState_ThreadRunning
  | PipelineState_ThreadPasued
  | PipelineState_Error
deriving DecidableEq, Repr

open PipelineState

/-- Integer value of an enumerator, as written in the enumeration. -/
def PipelineState.toCode : PipelineState → Nat
  | PipelineState_ThreadNotCreated => 0
  | PipelineState_ThreadStopped => 1
  | PipelineState_ThreadRunning => 2
  | PipelineState_ThreadPasued => 3
  | PipelineState_Error => 4

/-- Enumerator named by an integer value, if any. -/
def PipelineState.ofCode : Nat → Option PipelineState
  | 0 => some PipelineState_ThreadNotCreated
  | 1 => some PipelineState_ThreadStopped
  | 2 => some PipelineState_ThreadRunning
  | 3 => some PipelineState_ThreadPasued
  | 4 => some PipelineState_Error
  | _ => none

/-- All enumerators, in declaration order. -/
def PipelineState.all : List PipelineState :=
  [PipelineState_ThreadNotCreated, PipelineState_ThreadStopped,
   PipelineState_ThreadRunning, PipelineState_ThreadPasued, PipelineState_Error]

/-- The record `PipelineManager::PipelineData`.  A `std::shared_ptr` member is
an optional value (`none` is the null pointer). -/
structure PipelineData where
  params : PipelineRawData
  pipeline : Option Pipeline
  spin_nodes : List NodeHandle
  thread : Option Thread
  state : PipelineState
deriving DecidableEq, Repr

end PipelineManager

/-- Object state of class `PipelineManager`: its two data members. -/
structure PipelineManager where
  pipelines_ : StdMap PipelineManager.PipelineData
  engine_manager_ : EngineManager

namespace PipelineManager

instance decEq : DecidableEq PipelineManager := fun a b =>
  decidable_of_iff (a.pipelines_ = b.pipelines_ ∧ a.engine_manager_ = b.engine_manager_)
    ⟨fun h => by cases a; cases b; cases h.1; cases h.2; rfl, fun h => h ▸ ⟨rfl, rfl⟩⟩

/-- The private default constructor `PipelineManager(){}`: both members are
default-constructed. -/
def init : PipelineManager := ⟨StdMap.empty, ⟨[]⟩⟩

/-- Member function `getPipelines`: `return pipelines_;` by value.  The result
is the copy of the map, paired with the object state after the call. -/
def getPipelines (s : PipelineManager) : StdMap PipelineData × PipelineManager :=
  (s.pipelines_, s)

end PipelineManager

/-- Modelled from the spec: the error taxonomy of the registry (configuration
errors, engine-initialization error, runtime inference error and the two
lifecycle errors).  The header declares no error type. -/
inductive ManagerError where
  | unsupportedTaskType
  | missingParameter
  | unresolvedReference
  | cycleDetected
  | engineInitialization
  | runtimeInference
  | unknownPipeline
  | duplicateActive
deriving DecidableEq, Repr

/-- Modelled from the spec: the pipeline graph builder (`parseInputDevice`,
`parseOutput`, `parseInference` and the `create...` constructors, whose bodies
are not in the header).  It either fails or yields the assembled pipeline; its
only side effect is on the engine provider. -/
abbrev GraphBuilder : Type :=
  PipelineRawData → EngineManager → Except ManagerError (Pipeline × EngineManager)

/-- Modelled from the spec: validity of a configuration, which the header does
not define.  A configuration is valid when the graph build on it succeeds (no
configuration error and no engine-initialization error). -/
def GraphBuilder.valid (build : GraphBuilder) (params : PipelineRawData)
    (em : EngineManager) : Bool :=
  match build params em with
  | .ok _ => true
  | .error _ => false

/-- Equality of results is decidable when equality of errors and of values is. -/
instance exceptDecEq {E A : Type} [DecidableEq E] [DecidableEq A] : DecidableEq (Except E A)
  | .ok a, .ok b => decidable_of_iff (a = b) ⟨fun h => h ▸ rfl, fun h => Except.ok.inj h⟩
  | .error a, .error b => decidable_of_iff (a = b) ⟨fun h => h ▸ rfl, fun h => Except.error.inj h⟩
  | .ok _, .error _ => isFalse (fun h => Except.noConfusion h)
  | .error _, .ok _ => isFalse (fun h => Except.noConfusion h)

/-- Whether a result is an error. -/
def isError {E A : Type} : Except E A → Bool
  | .ok _ => false
  | .error _ => true

namespace PipelineManager

open PipelineState

/-- Modelled from the spec: a record is active when its state is Running or
Paused. -/
def PipelineData.isActive (r : PipelineData) : Bool :=
  decide (r.state = PipelineState_ThreadRunning) || decide (r.state = PipelineState_ThreadPasued)

/-- Modelled from the spec: `createPipeline`, declared in the header without a
body.  It fails when a record of the same name exists and is Running or
Paused; otherwise it builds the pipeline and stores a new record in state
Stopped under the name, replacing an inactive record of that name.  On any
failure the registry is left as it was. -/
def createPipeline (build : GraphBuilder) (params : PipelineRawData) (s : PipelineManager) :
    Except ManagerError Pipeline × PipelineManager :=
  if (s.pipelines_.find? params.name).any PipelineData.isActive then
    (.error .duplicateActive, s)
  else
    match build params s.engine_manager_ with
    | .error e => (.error e, s)
    | .ok (p, em) =>
      (.ok p,
        { pipelines_ := s.pipelines_.assign params.name
            { params := params, pipeline := some p, spin_nodes := [], thread := none,
              state := PipelineState_ThreadStopped },
          engine_manager_ := em })

/-- Modelled from the spec: `removePipeline`, declared in the header without a
body.  An unknown name is reported as the error "unknown pipeline"; a known
name has its worker stopped and joined, its pipeline released and its entry
erased. -/
def removePipeline (name : String) (s : PipelineManager) :
    Except ManagerError Unit × PipelineManager :=
  match s.pipelines_.find? name with
  | none => (.error .unknownPipeline, s)
  | some _ => (.ok (), { s with pipelines_ := s.pipelines_.erase name })

/-- Modelled from the spec: the step of `runAll` on one record.  A Stopped
record gets one new worker thread, running `threadPipeline` on its name, and
becomes Running; any other record is left untouched and no thread is made. -/
def runRecord (name : String) (r : PipelineData) : List Thread × PipelineData :=
  if r.state = PipelineState_ThreadStopped then
    ([⟨name⟩], { r with thread := some ⟨name⟩, state := PipelineState_ThreadRunning })
  else ([], r)

/-- Modelled from the spec: the loop of `runAll` over the entries of the
registry in iteration order.  It yields the threads spawned and the entries
after the loop. -/
def runAllLoop : List (String × PipelineData) → List Thread × List (String × PipelineData)
  | [] => ([], [])
  | e :: t =>
    ((runRecord e.1 e.2).1 ++ (runAllLoop t).1, (e.1, (runRecord e.1 e.2).2) :: (runAllLoop t).2)

theorem runAllLoop_keys :
    ∀ l : List (String × PipelineData), (runAllLoop l).2.map Prod.fst = l.map Prod.fst := by
  intro l
  induction l with
  | nil => rfl
  | cons e t ih => simp [runAllLoop, ih]

theorem runAllLoop_sorted (l : List (String × PipelineData)) (h : StdMap.Sorted l) :
    StdMap.Sorted (runAllLoop l).2 := by
  have h1 : (l.map Prod.fst).Pairwise StdString.less := List.pairwise_map.mpr h
  rw [← runAllLoop_keys l] at h1
  exact List.pairwise_map.mp h1

/-- Modelled from the spec: `runAll`, declared in the header without a body.
The result is the list of worker threads it spawned, with the object state
after the call. -/
def runAll (s : PipelineManager) : List Thread × PipelineManager :=
  ((runAllLoop s.pipelines_.entries).1,
    { s with pipelines_ := ⟨(runAllLoop s.pipelines_.entries).2,
        runAllLoop_sorted s.pipelines_.entries s.pipelines_.sorted⟩ })

/-- Address of a registry map: the value of `&pipelines_`.  The class has one
map member, so there is one such address per object. -/
inductive MapPtr where
  | pipelines_
deriving DecidableEq, Repr

/-- Member function `getPipelinesPtr`: `return &pipelines_;`. -/
def getPipelinesPtr (s : PipelineManager) : MapPtr × PipelineManager :=
  (MapPtr.pipelines_, s)

/-- Reading the map a pointer refers to (`*ptr`). -/
def MapPtr.load : MapPtr → PipelineManager → StdMap PipelineData
  | .pipelines_, s => s.pipelines_

/-- Writing the map a pointer refers to. -/
def MapPtr.store : MapPtr → StdMap PipelineData → PipelineManager → PipelineManager
  | .pipelines_, m, s => { s with pipelines_ := m }

/-- A modification of one entry of a map: `insert`, `erase`, or the replacing
assignment `m[k] = v`. -/
inductive MapEdit where
  | insert (k : String) (v : PipelineData)
  | erase (k : String)
  | assign (k : String) (v : PipelineData)

/-- Effect of a modification on a map value. -/
def MapEdit.apply : MapEdit → StdMap PipelineData → StdMap PipelineData
  | .insert k v, m => m.insert k v
  | .erase k, m => m.erase k
  | .assign k v, m => m.assign k v

/-- A modification made through a pointer (`ptr->insert(...)` and the like). -/
def MapPtr.edit (p : MapPtr) (e : MapEdit) (s : PipelineManager) : PipelineManager :=
  p.store (e.apply (p.load s)) s

/-- A caller of the accessors: the manager object it talks to and a local
variable holding the map a call of `getPipelines` returned. -/
structure Caller where
  manager : PipelineManager
  snapshot : StdMap PipelineData

/-- The caller stores the result of `getPipelines` in its local variable. -/
def Caller.takeSnapshot (c : Caller) : Caller :=
  { manager := (getPipelines c.manager).2, snapshot := (getPipelines c.manager).1 }

/-- The caller modifies the registry through the pointer `getPipelinesPtr`
returns. -/
def Caller.editViaPtr (e : MapEdit) (c : Caller) : Caller :=
  { c with manager := (getPipelinesPtr c.manager).1.edit e (getPipelinesPtr c.manager).2 }

end PipelineManager

namespace Example

open PipelineManager PipelineManager.PipelineState

/-- The configuration of the scenario: one input, one face-detection stage
without upstream reference, one output. -/
def config (name : String) : PipelineRawData :=
  { name := name, inputs := ["webcam0"], outputs := ["display0"],
    infers := [{ tag := "face-detection", params := [], upstream := [] }] }

/-- A builder that accepts every configuration and touches no engine. -/
def builder : GraphBuilder := fun params em =>
  .ok ({ name := params.name, inputs := params.inputs,
         stages := params.infers.map InferenceRawData.tag,
         outputs := params.outputs }, em)

/-- A record for the scenario's configuration in a given state; the worker
thread is present exactly for the Running and Paused states. -/
def record (name : String) (st : PipelineState) : PipelineData :=
  { params := config name, pipeline := none, spin_nodes := [],
    thread := if st = PipelineState_ThreadRunning ∨ st = PipelineState_ThreadPasued
      then some ⟨name⟩ else none,
    state := st }

/-- A registry holding the records "cam0" and "cam1" in the given states. -/
def manager (st0 st1 : PipelineState) : PipelineManager :=
  { pipelines_ := (StdMap.empty.assign "cam1" (record "cam1" st1)).assign "cam0" (record "cam0" st0),
    engine_manager_ := ⟨[]⟩ }

end Example

namespace PipelineManager

/-- The twelve private member functions `create...` of the header, each
declared as taking one `InferenceRawData` and returning one
`std::shared_ptr<dynamic_vino_lib::BaseInference>`. -/
inductive InferenceConstructor where
  | createFaceDetection
  | createAgeGenderRecognition
  | createEmotionRecognition
  | createHeadPoseEstimation
  | createObjectDetection
  | createObjectSegmentation
  | createPersonReidentification
  | createFaceReidentification
  | createPersonAttribsDetection
  | createVehicleAttribsDetection
  | createLicensePlateDetection
  | createLandmarksDetection
deriving DecidableEq, Repr

/-- The `create...` declarations in the order of the header. -/
def InferenceConstructor.declared : List InferenceConstructor :=
  [.createFaceDetection, .createAgeGenderRecognition, .createEmotionRecognition,
   .createHeadPoseEstimation, .createObjectDetection, .createObjectSegmentation,
   .createPersonReidentification, .createFaceReidentification,
   .createPersonAttribsDetection, .createVehicleAttribsDetection,
   .createLicensePlateDetection, .createLandmarksDetection]

/-- Modelled from the spec: the supported inference task types (the type tags
themselves are constants of `vino_param_lib`, not part of the header). -/
inductive TaskType where
  | faceDetection
  | ageGenderRecognition
  | emotionRecognition
  | headPoseEstimation
  | objectDetection
  | objectSegmentation
  | personReidentification
  | faceReidentification
  | personAttribsDetection
  | vehicleAttribsDetection
  | licensePlateDetection
  | landmarksDetection
deriving DecidableEq, Repr

/-- Modelled from the spec: the task types in the order the spec lists them. -/
def TaskType.supported : List TaskType :=
  [.faceDetection, .ageGenderRecognition, .emotionRecognition, .headPoseEstimation,
   .objectDetection, .objectSegmentation, .personReidentification, .faceReidentification,
   .personAttribsDetection, .vehicleAttribsDetection, .licensePlateDetection,
   .landmarksDetection]

/-- Modelled from the spec: the dispatch of `parseInference` (body not in the
header) from a task type to the constructor named after it. -/
def constructorTable : List (TaskType × InferenceConstructor) :=
  [(.faceDetection, .createFaceDetection),
   (.ageGenderRecognition, .createAgeGenderRecognition),
   (.emotionRecognition, .createEmotionRecognition),
   (.headPoseEstimation, .createHeadPoseEstimation),
   (.objectDetection, .createObjectDetection),
   (.objectSegmentation, .createObjectSegmentation),
   (.personReidentification, .createPersonReidentification),
   (.faceReidentification, .createFaceReidentification),
   (.personAttribsDetection, .createPersonAttribsDetection),
   (.vehicleAttribsDetection, .createVehicleAttribsDetection),
   (.licensePlateDetection, .createLicensePlateDetection),
   (.landmarksDetection, .createLandmarksDetection)]

/-- Constructors the table gives for a task type. -/
def constructorsOf (t : TaskType) : List InferenceConstructor :=
  (constructorTable.filter (fun e => decide (e.1 = t))).map Prod.snd

/-- Task types the table serves with a constructor. -/
def taskTypesOf (c : InferenceConstructor) : List TaskType :=
  (constructorTable.filter (fun e => decide (e.2 = c))).map Prod.fst

/-- The member functions and special members the class declares. -/
inductive Member where
  | getInstance
  | createPipeline
  | removePipeline
  | updatePipeline
  | runAll
  | stopAll
  | joinAll
  | runService
  | getPipelines
  | getPipelinesPtr
  | defaultConstructor
  | copyConstructor
  | copyAssignment
  | threadPipeline
  | parseInputDevice
  | parseOutput
  | parseInference
  | create (c : InferenceConstructor)
deriving DecidableEq, Repr

/-- Access of a member: the members before the `private:` label are public,
the constructors, the assignment operator and the helpers after it are
private. -/
def Member.isPublic : Member → Bool
  | .getInstance | .createPipeline | .removePipeline | .updatePipeline
  | .runAll | .stopAll | .joinAll | .runService | .getPipelines | .getPipelinesPtr => true
  | .defaultConstructor | .copyConstructor | .copyAssignment | .threadPipeline
  | .parseInputDevice | .parseOutput | .parseInference | .create _ => false

/-- Members whose call brings a new `PipelineManager` object into being. -/
def Member.constructsObject : Member → Bool
  | .defaultConstructor | .copyConstructor => true
  | _ => false

/-- The data members of the class. -/
inductive DataMember where
  | pipelines_
  | engine_manager_
deriving DecidableEq, Repr

/-- Whether a data member is a lock: `pipelines_` is a `std::map` and
`engine_manager_` an `Engines::EngineManager`; the class declares no mutex. -/
def DataMember.isLock : DataMember → Bool
  | .pipelines_ => false
  | .engine_manager_ => false

/-- Primitive actions of a member function body on the object. -/
inductive Event where
  | acquire (m : DataMember)
  | release (m : DataMember)
  | copyMap
  | addressOfMap
deriving DecidableEq, Repr

/-- Actions of the body of `getPipelines`, `return pipelines_;`: the map is
copied into the result, nothing else happens. -/
def getPipelinesEvents : List Event := [Event.copyMap]

/-- Whether every copy of the map in a sequence of actions happens while a
lock is held; `held` counts the locks held on entry. -/
def copiesUnderLock : List Event → Nat → Bool
  | [], _ => true
  | .acquire _ :: t, held => copiesUnderLock t (held + 1)
  | .release _ :: t, held => copiesUnderLock t (held - 1)
  | .copyMap :: t, held => decide (0 < held) && copiesUnderLock t held
  | .addressOfMap :: t, held => copiesUnderLock t held

/-- Whether an action acquires a lock. -/
def Event.isAcquire : Event → Bool
  | .acquire _ => true
  | _ => false

end PipelineManager

/-- Static storage of a process: the function-local `static PipelineManager
manager_` of `getInstance`, which does not exist (`none`) until the first call
constructs it. -/
structure Process where
  manager_ : Option PipelineManager

namespace Process

/-- The `PipelineManager` objects alive in a process. -/
def instances (p : Process) : List PipelineManager := p.manager_.toList

/-- A process in which `getInstance` has not been called yet. -/
def start : Process := ⟨none⟩

end Process

namespace PipelineManager

/-- A reference to a `PipelineManager` object of the process: the static
`manager_` is the only object of the class. -/
inductive ManagerRef where
  | manager_
deriving DecidableEq, Repr

/-- Static member function `getInstance`: the first call constructs the static
`manager_` with the default constructor, every call returns a reference to
it. -/
def getInstance (p : Process) : ManagerRef × Process :=
  match p.manager_ with
  | some _ => (ManagerRef.manager_, p)
  | none => (ManagerRef.manager_, ⟨some PipelineManager.init⟩)

/-- The object a reference refers to. -/
def ManagerRef.read : ManagerRef → Process → Option PipelineManager
  | .manager_, p => p.manager_

/-- A change of the object made through a reference: a member function call
with effect `f` on the object state. -/
def ManagerRef.update : ManagerRef → (PipelineManager → PipelineManager) → Process → Process
  | .manager_, f, p => ⟨p.manager_.map f⟩

end PipelineManager

namespace StdMap

theorem filter_key_eq_nil {V : Type} (k : String) (l : List (String × V))
    (h : ∀ x ∈ l, StdString.less k x.1) :
    l.filter (fun e => decide (e.1 = k)) = [] := by
  apply List.filter_eq_nil_iff.mpr
  intro x hx
  have hlt := h x hx
  simp only [decide_eq_true_eq]
  intro heq
  rw [heq] at hlt
  exact StdString.less_irrefl k hlt

theorem records_eq_find {V : Type} (k : String) :
    ∀ (l : List (String × V)), Sorted l →
      (l.filter (fun e => decide (e.1 = k))).map Prod.snd = (findEntries k l).toList := by
  intro l
  induction l with
  | nil => intro _; rfl
  | cons e t ih =>
    intro hs
    have hs2 := List.pairwise_cons.mp hs
    by_cases hk : k = e.1
    · have htail : t.filter (fun x => decide (x.1 = k)) = [] := by
        apply filter_key_eq_nil
        intro x hx
        rw [hk]
        exact hs2.1 x hx
      subst hk
      simp [List.filter_cons, findEntries, htail]
    · have hk2 : ¬ e.1 = k := fun h => hk h.symm
      simp [findEntries, hk, hk2, List.filter_cons]
      simpa using ih hs2.2

theorem recordsUnder_eq_find {V : Type} (m : StdMap V) (k : String) :
    m.recordsUnder k = (m.find? k).toList :=
  records_eq_find k m.entries m.sorted

theorem count_le_one {V : Type} (m : StdMap V) (k : String) : m.count k ≤ 1 := by
  unfold count
  rw [recordsUnder_eq_find]
  cases m.find? k <;> simp

theorem find_assignEntries_self {V : Type} (k : String) (v : V) :
    ∀ (l : List (String × V)), findEntries k (assignEntries k v l) = some v := by
  intro l
  induction l with
  | nil => simp [assignEntries, findEntries]
  | cons e t ih =>
    unfold assignEntries
    split_ifs with h1 h2
    · simp [findEntries]
    · simp [findEntries]
    · simp [findEntries, h2, ih]

theorem find_assign_self {V : Type} (m : StdMap V) (k : String) (v : V) :
    (m.assign k v).find? k = some v :=
  find_assignEntries_self k v m.entries

theorem find_insertEntries_isSome {V : Type} (k : String) (v : V) :
    ∀ (l : List (String × V)), (findEntries k (insertEntries k v l)).isSome = true := by
  intro l
  induction l with
  | nil => simp [insertEntries, findEntries]
  | cons e t ih =>
    unfold insertEntries
    split_ifs with h1 h2
    · simp [findEntries]
    · simp [findEntries, h2]
    · simp [findEntries, h2, ih]

theorem find_eq_none_of_less {V : Type} (k : String) :
    ∀ (l : List (String × V)), (∀ x ∈ l, StdString.less k x.1) → findEntries k l = none := by
  intro l
  induction l with
  | nil => intro _; rfl
  | cons e t ih =>
    intro h
    have hne : k ≠ e.1 := by
      intro heq
      have := h e (List.mem_cons_self _ _)
      rw [← heq] at this
      exact StdString.less_irrefl k this
    simp only [findEntries, hne, if_false]
    exact ih (fun x hx => h x (List.mem_cons_of_mem _ hx))

theorem find_eraseEntries_self {V : Type} (k : String) :
    ∀ (l : List (String × V)), Sorted l → findEntries k (eraseEntries k l) = none := by
  intro l
  induction l with
  | nil => intro _; rfl
  | cons e t ih =>
    intro hs
    have hs2 := List.pairwise_cons.mp hs
    unfold eraseEntries
    split_ifs with h1
    · apply find_eq_none_of_less
      intro x hx
      rw [h1]
      exact hs2.1 x hx
    · simp only [findEntries, h1, if_false]
      exact ih hs2.2

theorem find_eq_none_of_not_mem_keys {V : Type} (k : String) :
    ∀ (l : List (String × V)), k ∉ l.map Prod.fst → findEntries k l = none := by
  intro l
  induction l with
  | nil => intro _; rfl
  | cons e t ih =>
    intro h
    simp only [List.map_cons, List.mem_cons, not_or] at h
    simp only [findEntries, h.1, if_false]
    exact ih h.2

theorem keys_nodup {V : Type} (m : StdMap V) : m.keys.Nodup := by
  unfold keys List.Nodup
  apply List.pairwise_map.mpr
  refine List.Pairwise.imp ?_ m.sorted
  intro a b hab heq
  rw [heq] at hab
  exact StdString.less_irrefl _ hab

theorem count_eq_one_of_find {V : Type} (m : StdMap V) (k : String)
    (h : (m.find? k).isSome = true) : m.count k = 1 := by
  unfold count
  rw [recordsUnder_eq_find]
  cases hf : m.find? k with
  | none => rw [hf] at h; cases h
  | some v => rfl

end StdMap

namespace PipelineManager

open PipelineState

theorem runRecord_again (k : String) (r : PipelineData) :
    runRecord k (runRecord k r).2 = ([], (runRecord k r).2) := by
  unfold runRecord
  by_cases h : r.state = PipelineState_ThreadStopped
  · simp [h]
  · simp [h]

theorem runAllLoop_again :
    ∀ l : List (String × PipelineData), runAllLoop (runAllLoop l).2 = ([], (runAllLoop l).2) := by
  intro l
  induction l with
  | nil => rfl
  | cons e t ih =>
    simp only [runAllLoop, runRecord_again, ih, List.append_nil]

theorem find_runAllLoop (k : String) :
    ∀ l : List (String × PipelineData),
      StdMap.findEntries k (runAllLoop l).2 =
        (StdMap.findEntries k l).map (fun r => (runRecord k r).2) := by
  intro l
  induction l with
  | nil => rfl
  | cons e t ih =>
    by_cases h : k = e.1
    · subst h; simp [runAllLoop, StdMap.findEntries]
    · simp [runAllLoop, StdMap.findEntries, h, ih]

theorem runRecord_thread_name (k : String) (r : PipelineData) :
    ∀ t ∈ (runRecord k r).1, t.pipelineName = k := by
  intro t ht
  unfold runRecord at ht
  split_ifs at ht with h
  · simp at ht; rw [ht]
  · simp at ht

theorem runAllLoop_thread_name :
    ∀ (l : List (String × PipelineData)) (t : Thread),
      t ∈ (runAllLoop l).1 → t.pipelineName ∈ l.map Prod.fst := by
  intro l
  induction l with
  | nil => intro t ht; simp [runAllLoop] at ht
  | cons e tl ih =>
    intro t ht
    simp only [runAllLoop, List.mem_append] at ht
    rcases ht with h | h
    · rw [runRecord_thread_name e.1 e.2 t h]; simp
    · exact List.mem_cons_of_mem _ (ih t h)

theorem spawned_for_name (k : String) :
    ∀ l : List (String × PipelineData), StdMap.Sorted l →
      (runAllLoop l).1.filter (fun t => decide (t.pipelineName = k)) =
        match StdMap.findEntries k l with
        | some r => (runRecord k r).1
        | none => [] := by
  intro l
  induction l with
  | nil => intro _; rfl
  | cons e tl ih =>
    intro hs
    have hs2 := List.pairwise_cons.mp hs
    by_cases h : k = e.1
    · subst h
      have htail : (runAllLoop tl).1.filter (fun t => decide (t.pipelineName = e.1)) = [] := by
        apply List.filter_eq_nil_iff.mpr
        intro t ht
        simp only [decide_eq_true_eq]
        intro heq
        have hmem := runAllLoop_thread_name tl t ht
        rw [heq] at hmem
        obtain ⟨x, hx, hx1⟩ := List.mem_map.mp hmem
        have hlt := hs2.1 x hx
        rw [hx1] at hlt
        exact StdString.less_irrefl _ hlt
      have hhead : (runRecord e.1 e.2).1.filter (fun t => decide (t.pipelineName = e.1)) =
          (runRecord e.1 e.2).1 := by
        apply List.filter_eq_self.mpr
        intro t ht
        simp [runRecord_thread_name e.1 e.2 t ht]
      simp only [runAllLoop, List.filter_append, htail, hhead, List.append_nil,
        StdMap.findEntries, if_true]
    · have hhead : (runRecord e.1 e.2).1.filter (fun t => decide (t.pipelineName = k)) = [] := by
        apply List.filter_eq_nil_iff.mpr
        intro t ht
        simp only [decide_eq_true_eq]
        rw [runRecord_thread_name e.1 e.2 t ht]
        exact fun heq => h heq.symm
      simp only [runAllLoop, List.filter_append, hhead, List.nil_append,
        StdMap.findEntries, h, if_false]
      exact ih hs2.2

end PipelineManager

namespace PipelineManager

open PipelineState

/-- C6: `PipelineState` has exactly the five enumerators NotCreated, Stopped,
Running, Paused and Error; their integer codes are 0, 1, 2, 3 and 4 in that
order; the state-to-code mapping is injective and every code in 0..4 names
exactly one state. -/
theorem pipelineState_five_distinct_codes :
    PipelineState.all.length = 5 ∧
    PipelineState.all.Nodup ∧
    (∀ s : PipelineState, s ∈ PipelineState.all) ∧
    PipelineState.all.map PipelineState.toCode = [0, 1, 2, 3, 4] ∧
    Function.Injective PipelineState.toCode ∧
    (∀ s : PipelineState, PipelineState.ofCode s.toCode = some s) ∧
    (∀ c : Nat, c ≤ 4 → ∃! s : PipelineState, s.toCode = c) ∧
    (∀ c : Nat, 4 < c → ∀ s : PipelineState, s.toCode ≠ c) := by
  have hinj : Function.Injective PipelineState.toCode := by
    intro a b h
    cases a <;> cases b <;> first | rfl | (exact absurd h (by decide))
  refine ⟨rfl, by decide, ?_, rfl, hinj, ?_, ?_, ?_⟩
  · intro s; cases s <;> decide
  · intro s; cases s <;> rfl
  · intro c hc
    have hex : ∃ s : PipelineState, s.toCode = c := by
      interval_cases c
      · exact ⟨PipelineState_ThreadNotCreated, rfl⟩
      · exact ⟨PipelineState_ThreadStopped, rfl⟩
      · exact ⟨PipelineState_ThreadRunning, rfl⟩
      · exact ⟨PipelineState_ThreadPasued, rfl⟩
      · exact ⟨PipelineState_Error, rfl⟩
    obtain ⟨s, hs⟩ := hex
    exact ⟨s, hs, fun t ht => hinj (ht.trans hs.symm)⟩
  · intro c hc s hs
    cases s <;> simp [PipelineState.toCode] at hs <;> omega

/-- C1: for every registry state, `getPipelines` returns a map equal to the
registry map `pipelines_` (same names in the same order, the same
`PipelineData` under every name), and the call leaves the object state, hence
the registry map, unchanged. -/
theorem getPipelines_returns_registry (s : PipelineManager) :
    (getPipelines s).1 = s.pipelines_ ∧
    (getPipelines s).1.keys = s.pipelines_.keys ∧
    (∀ name : String, (getPipelines s).1.find? name = s.pipelines_.find? name) ∧
    (getPipelines s).2 = s ∧
    (getPipelines s).2.pipelines_ = s.pipelines_ :=
  ⟨rfl, rfl, fun _ => rfl, rfl, rfl⟩

/-- C2: in every registry state (so in every state the operations of the
manager can reach) and for every pipeline name, the registry holds at most one
`PipelineData` record under that name: the keys of `pipelines_` are pairwise
distinct, the snapshot shows at most one record per name, and inserting or
assigning under a name leaves exactly one record there, erasing leaves none. -/
theorem registry_name_is_unique_key (s : PipelineManager) (name : String) :
    s.pipelines_.count name ≤ 1 ∧
    ((getPipelines s).1.recordsUnder name).length ≤ 1 ∧
    s.pipelines_.keys.Nodup ∧
    (∀ v : PipelineData, (s.pipelines_.insert name v).count name = 1) ∧
    (∀ v : PipelineData, (s.pipelines_.assign name v).recordsUnder name = [v]) ∧
    (s.pipelines_.erase name).count name = 0 ∧
    (∀ (build : GraphBuilder) (params : PipelineRawData),
      (createPipeline build params s).2.pipelines_.count name ≤ 1) ∧
    (∀ other : String, (removePipeline other s).2.pipelines_.count name ≤ 1) ∧
    (runAll s).2.pipelines_.count name ≤ 1 ∧
    (∀ e : MapEdit, ((getPipelinesPtr s).1.edit e (getPipelinesPtr s).2).pipelines_.count name ≤ 1) := by
  refine ⟨StdMap.count_le_one _ _, StdMap.count_le_one _ _, StdMap.keys_nodup _, ?_, ?_, ?_,
    fun _ _ => StdMap.count_le_one _ _, fun _ => StdMap.count_le_one _ _,
    StdMap.count_le_one _ _, fun _ => StdMap.count_le_one _ _⟩
  · intro v
    exact StdMap.count_eq_one_of_find _ _ (StdMap.find_insertEntries_isSome name v _)
  · intro v
    rw [StdMap.recordsUnder_eq_find, StdMap.find_assign_self]
    rfl
  · unfold StdMap.count
    rw [StdMap.recordsUnder_eq_find]
    have h : (s.pipelines_.erase name).find? name = none :=
      StdMap.find_eraseEntries_self name _ s.pipelines_.sorted
    rw [h]
    rfl

/-- C3, the claim as stated fails: the scenario configuration "cam0" is valid,
yet in a registry whose record "cam0" is Running `createPipeline` reports the
duplicate-active error and the one record under "cam0" is still Running, not
Stopped. -/
theorem createPipeline_active_name_not_stopped :
    Example.builder.valid (Example.config "cam0")
      (Example.manager PipelineState_ThreadRunning PipelineState_ThreadStopped).engine_manager_
      = true ∧
    (createPipeline Example.builder (Example.config "cam0")
      (Example.manager PipelineState_ThreadRunning PipelineState_ThreadStopped)).1
      = .error .duplicateActive ∧
    ((getPipelines (createPipeline Example.builder (Example.config "cam0")
        (Example.manager PipelineState_ThreadRunning PipelineState_ThreadStopped)).2).1.recordsUnder
      "cam0").map PipelineData.state = [PipelineState_ThreadRunning] ∧
    ((getPipelines (createPipeline Example.builder (Example.config "cam0")
        (Example.manager PipelineState_ThreadRunning PipelineState_ThreadStopped)).2).1.recordsUnder
      "cam0").map PipelineData.state ≠ [PipelineState_ThreadStopped] := by
  decide

/-- C3, amended: for every configuration that is valid (its graph build
succeeds) and every registry state, if no Running or Paused record exists
under the configuration's name then `createPipeline` succeeds and the map
`getPipelines` returns afterwards contains exactly one record under that name,
in state Stopped and carrying the configuration; if such an active record
exists, `createPipeline` fails with the duplicate-active error and leaves the
registry unchanged. -/
theorem createPipeline_stores_one_stopped_record (build : GraphBuilder)
    (params : PipelineRawData) (s : PipelineManager)
    (hvalid : build.valid params s.engine_manager_ = true) :
    ((s.pipelines_.find? params.name).any PipelineData.isActive = false →
      (∃ p, (createPipeline build params s).1 = .ok p) ∧
      ∃ r, (getPipelines (createPipeline build params s).2).1.recordsUnder params.name = [r] ∧
        r.state = PipelineState_ThreadStopped ∧ r.params = params) ∧
    ((s.pipelines_.find? params.name).any PipelineData.isActive = true →
      (createPipeline build params s).1 = .error .duplicateActive ∧
      (createPipeline build params s).2 = s) := by
  constructor
  · intro hfree
    unfold GraphBuilder.valid at hvalid
    cases hb : build params s.engine_manager_ with
    | error e => rw [hb] at hvalid; cases hvalid
    | ok pe =>
      obtain ⟨p, em⟩ := pe
      simp only [createPipeline, hfree, hb, getPipelines]
      refine ⟨⟨p, by simp⟩, ?_⟩
      simp only [Bool.false_eq_true, if_false]
      rw [StdMap.recordsUnder_eq_find, StdMap.find_assign_self]
      exact ⟨_, rfl, rfl, rfl⟩
  · intro hact
    simp [createPipeline, hact]

/-- C3, amended, at the scenario input: "cam1" is created over a record that
was never started, next to the Running record "cam0". -/
theorem createPipeline_stores_one_stopped_record_witness :
    Example.builder.valid (Example.config "cam1")
      (Example.manager PipelineState_ThreadRunning PipelineState_ThreadNotCreated).engine_manager_
      = true ∧
    ((Example.manager PipelineState_ThreadRunning
        PipelineState_ThreadNotCreated).pipelines_.find? (Example.config "cam1").name).any
      PipelineData.isActive = false ∧
    (∃ p, (createPipeline Example.builder (Example.config "cam1")
      (Example.manager PipelineState_ThreadRunning PipelineState_ThreadNotCreated)).1 = .ok p) ∧
    ∃ r, (getPipelines (createPipeline Example.builder (Example.config "cam1")
        (Example.manager PipelineState_ThreadRunning
          PipelineState_ThreadNotCreated)).2).1.recordsUnder (Example.config "cam1").name = [r] ∧
      r.state = PipelineState_ThreadStopped ∧ r.params = Example.config "cam1" :=
  ⟨by decide, by decide,
   (createPipeline_stores_one_stopped_record Example.builder (Example.config "cam1")
      (Example.manager PipelineState_ThreadRunning PipelineState_ThreadNotCreated)
      (by decide)).1 (by decide)⟩

/-- C4: for every registry state and every name that is not a key of the
registry, `removePipeline` returns the unknown-pipeline error, never a
success, and leaves the registry as it was. -/
theorem removePipeline_unknown_name_is_error (s : PipelineManager) (name : String)
    (h : name ∉ s.pipelines_.keys) :
    (removePipeline name s).1 = .error .unknownPipeline ∧
    (∀ u : Unit, (removePipeline name s).1 ≠ .ok u) ∧
    isError (removePipeline name s).1 = true ∧
    (removePipeline name s).2 = s := by
  have hfind : s.pipelines_.find? name = none :=
    StdMap.find_eq_none_of_not_mem_keys name _ h
  simp [removePipeline, hfind, isError]

/-- C4 at the scenario input: "cam2" is not a key of the registry holding
"cam0" and "cam1". -/
theorem removePipeline_unknown_name_is_error_witness :
    "cam2" ∉ (Example.manager PipelineState_ThreadRunning PipelineState_ThreadStopped).pipelines_.keys ∧
    (removePipeline "cam2"
      (Example.manager PipelineState_ThreadRunning PipelineState_ThreadStopped)).1
      = .error .unknownPipeline :=
  ⟨by decide,
   (removePipeline_unknown_name_is_error
      (Example.manager PipelineState_ThreadRunning PipelineState_ThreadStopped) "cam2"
      (by decide)).1⟩

/-- C5: for every registry state, after `runAll` every record that was Stopped
is Running and has exactly one worker thread (its thread handle is set and
exactly one thread was spawned for its name), every other record is untouched
and gets no thread, and a second `runAll` spawns no thread and leaves the
records, states and threads as the first left them. -/
theorem runAll_starts_each_stopped_once (s : PipelineManager) :
    (∀ (name : String) (r : PipelineData), s.pipelines_.find? name = some r →
      r.state = PipelineState_ThreadStopped →
      ∃ r2, (runAll s).2.pipelines_.find? name = some r2 ∧
        r2.state = PipelineState_ThreadRunning ∧
        r2.thread = some ⟨name⟩ ∧
        (runAll s).1.filter (fun t => decide (t.pipelineName = name)) = [⟨name⟩] ∧
        r2.params = r.params ∧ r2.pipeline = r.pipeline ∧ r2.spin_nodes = r.spin_nodes) ∧
    (∀ (name : String) (r : PipelineData), s.pipelines_.find? name = some r →
      r.state ≠ PipelineState_ThreadStopped →
      (runAll s).2.pipelines_.find? name = some r ∧
      (runAll s).1.filter (fun t => decide (t.pipelineName = name)) = []) ∧
    (runAll s).2.pipelines_.keys = s.pipelines_.keys ∧
    (runAll (runAll s).2).1 = [] ∧
    (runAll (runAll s).2).2 = (runAll s).2 ∧
    (runAll (runAll (runAll s).2).2).2 = (runAll s).2 := by
  have hfind : ∀ name, (runAll s).2.pipelines_.find? name =
      (s.pipelines_.find? name).map (fun r => (runRecord name r).2) :=
    fun name => find_runAllLoop name s.pipelines_.entries
  have hsp : ∀ name, (runAll s).1.filter (fun t => decide (t.pipelineName = name)) =
      match s.pipelines_.find? name with
      | some r => (runRecord name r).1
      | none => [] :=
    fun name => spawned_for_name name s.pipelines_.entries s.pipelines_.sorted
  have hagain : runAll (runAll s).2 = ([], (runAll s).2) := by
    unfold runAll
    simp only [runAllLoop_again]
  refine ⟨?_, ?_, ?_, ?_, ?_, ?_⟩
  · intro name r hr hst
    refine ⟨(runRecord name r).2, ?_, ?_, ?_, ?_, ?_, ?_, ?_⟩
    · rw [hfind, hr]; rfl
    · simp [runRecord, hst]
    · simp [runRecord, hst]
    · rw [hsp, hr]; simp [runRecord, hst]
    · simp [runRecord, hst]
    · simp [runRecord, hst]
    · simp [runRecord, hst]
  · intro name r hr hst
    constructor
    · rw [hfind, hr]; simp [runRecord, hst]
    · rw [hsp, hr]; simp [runRecord, hst]
  · exact runAllLoop_keys s.pipelines_.entries
  · rw [hagain]
  · rw [hagain]
  · rw [hagain, hagain]

/-- C5 at the scenario input: "cam1" is Stopped next to the Running "cam0";
after `runAll` it is Running with one worker thread. -/
theorem runAll_starts_each_stopped_once_witness :
    (Example.manager PipelineState_ThreadRunning PipelineState_ThreadStopped).pipelines_.find? "cam1"
      = some (Example.record "cam1" PipelineState_ThreadStopped) ∧
    ∃ r2, (runAll (Example.manager PipelineState_ThreadRunning
        PipelineState_ThreadStopped)).2.pipelines_.find? "cam1" = some r2 ∧
      r2.state = PipelineState_ThreadRunning ∧
      r2.thread = some ⟨"cam1"⟩ ∧
      (runAll (Example.manager PipelineState_ThreadRunning PipelineState_ThreadStopped)).1.filter
        (fun t => decide (t.pipelineName = "cam1")) = [⟨"cam1"⟩] ∧
      r2.params = (Example.record "cam1" PipelineState_ThreadStopped).params ∧
      r2.pipeline = (Example.record "cam1" PipelineState_ThreadStopped).pipeline ∧
      r2.spin_nodes = (Example.record "cam1" PipelineState_ThreadStopped).spin_nodes :=
  ⟨by decide,
   (runAll_starts_each_stopped_once
      (Example.manager PipelineState_ThreadRunning PipelineState_ThreadStopped)).1
      "cam1" (Example.record "cam1" PipelineState_ThreadStopped) (by decide) (by decide)⟩

/-- C7: there is a single registry instance for the process lifetime.  Every
call of `getInstance` returns the same reference; the object is constructed,
empty, by the first call and later calls construct nothing; after a call the
process holds exactly one `PipelineManager`; a change made through the
reference of one call is what the reference of a later call reads; and the
members that could make another object (default and copy constructor) and the
assignment operator are private. -/
theorem getInstance_single_instance (p : Process) (f : PipelineManager → PipelineManager) :
    (getInstance (getInstance p).2).1 = (getInstance p).1 ∧
    (getInstance (getInstance p).2).2 = (getInstance p).2 ∧
    (p.manager_ = none → (getInstance p).2.manager_ = some PipelineManager.init) ∧
    (∀ m : PipelineManager, p.manager_ = some m → (getInstance p).2 = p) ∧
    (getInstance Process.start).2.instances = [PipelineManager.init] ∧
    (getInstance p).2.instances.length = 1 ∧
    (getInstance ((getInstance p).1.update f (getInstance p).2)).2.instances.length = 1 ∧
    (getInstance ((getInstance p).1.update f (getInstance p).2)).1.read
        (getInstance ((getInstance p).1.update f (getInstance p).2)).2
      = ((getInstance p).1.read (getInstance p).2).map f ∧
    (∀ m : Member, m.constructsObject = true → m.isPublic = false) ∧
    Member.copyConstructor.isPublic = false ∧
    Member.copyAssignment.isPublic = false ∧
    Member.getInstance.isPublic = true := by
  obtain ⟨m⟩ := p
  cases m with
  | none =>
    refine ⟨rfl, rfl, fun _ => rfl, fun m h => (by cases h), rfl, rfl, rfl, rfl, ?_, rfl, rfl, rfl⟩
    intro m hm
    cases m <;> first | rfl | cases hm
  | some m0 =>
    refine ⟨rfl, rfl, fun h => (by cases h), fun _ _ => rfl, rfl, rfl, rfl, rfl, ?_, rfl, rfl, rfl⟩
    intro m hm
    cases m <;> first | rfl | cases hm

/-- C8, the claim as stated fails: the body of `getPipelines` copies the map
while no lock is held (it acquires none), and no data member of the class is a
lock. -/
theorem getPipelines_copy_not_under_lock :
    copiesUnderLock getPipelinesEvents 0 = false ∧
    getPipelinesEvents.any Event.isAcquire = false ∧
    DataMember.pipelines_.isLock = false ∧
    DataMember.engine_manager_.isLock = false := by
  decide

/-- C8, amended: `getPipelines` returns a copy equal to the registry map as it
is when the call runs, and takes that copy without acquiring any lock; the
class has no lock member, so the copy happens under a lock exactly when the
caller already holds one of its own. -/
theorem getPipelines_snapshot_takes_no_lock (s : PipelineManager) :
    (getPipelines s).1 = s.pipelines_ ∧
    (getPipelines s).2 = s ∧
    (∀ e ∈ getPipelinesEvents, e.isAcquire = false) ∧
    (∀ m : DataMember, m.isLock = false) ∧
    (∀ held : Nat, copiesUnderLock getPipelinesEvents held = decide (0 < held)) := by
  refine ⟨rfl, rfl, ?_, ?_, ?_⟩
  · intro e he
    simp only [getPipelinesEvents, List.mem_singleton] at he
    rw [he]; rfl
  · intro m; cases m <;> rfl
  · intro held
    simp [getPipelinesEvents, copiesUnderLock]

/-- C9: the factory has exactly one constructor per supported task type,
twelve in all: twelve distinct `create...` members are declared, twelve
distinct task types are supported, the dispatch pairs them in order, every
task type has exactly one constructor and every constructor serves exactly one
task type. -/
theorem one_constructor_per_task_type :
    InferenceConstructor.declared.length = 12 ∧
    InferenceConstructor.declared.Nodup ∧
    (∀ c : InferenceConstructor, c ∈ InferenceConstructor.declared) ∧
    TaskType.supported.length = 12 ∧
    TaskType.supported.Nodup ∧
    (∀ t : TaskType, t ∈ TaskType.supported) ∧
    constructorTable.length = 12 ∧
    constructorTable.map Prod.fst = TaskType.supported ∧
    constructorTable.map Prod.snd = InferenceConstructor.declared ∧
    (∀ t : TaskType, (constructorsOf t).length = 1) ∧
    (∀ c : InferenceConstructor, (taskTypesOf c).length = 1) := by
  refine ⟨rfl, by decide, ?_, rfl, by decide, ?_, rfl, rfl, rfl, ?_, ?_⟩
  · intro c; cases c <;> decide
  · intro t; cases t <;> decide
  · intro t; cases t <;> rfl
  · intro c; cases c <;> rfl

/-- C10: the copying accessor and the pointer accessor expose the same map.
For every registry state the map behind the pointer `getPipelinesPtr` returns
equals the map `getPipelines` returns; after an insertion, erasure or
replacement made through that pointer the next `getPipelines` returns the
modified map and the rest of the object is untouched; and a snapshot a caller
took with `getPipelines` before the modification still holds the map as it was
before. -/
theorem accessors_expose_same_map (s : PipelineManager) (e : MapEdit) (c : Caller) :
    (getPipelinesPtr s).1.load (getPipelinesPtr s).2 = (getPipelines s).1 ∧
    (getPipelinesPtr s).2 = s ∧
    (getPipelines ((getPipelinesPtr s).1.edit e (getPipelinesPtr s).2)).1
      = e.apply (getPipelines s).1 ∧
    ((getPipelinesPtr s).1.edit e (getPipelinesPtr s).2).engine_manager_ = s.engine_manager_ ∧
    (Caller.editViaPtr e (Caller.takeSnapshot c)).snapshot = c.manager.pipelines_ ∧
    (getPipelines (Caller.editViaPtr e (Caller.takeSnapshot c)).manager).1
      = e.apply (Caller.takeSnapshot c).snapshot :=
  ⟨rfl, rfl, rfl, rfl, rfl, rfl⟩

end PipelineManager
